import Mathlib

/-!
Shallow embedding of the persistence/state-tracking core of the repository
(file src/webapp/state_dao.py, class StateDao), together with proofs about it.

Modelling conventions:
- Python unix-time floats are modelled as integers (all claims use integral
  times; only order and second-resolution formatting matter to the code).
- The on-disk world (the live log file, the backup log files and the state
  directory) is carried inside the state record, since every file the code
  touches is owned by the DAO.
- The code base runs on Python 2.7 (it is a ROS project).  Python-2 ordering
  of None against numbers (None is below every number) is modelled explicitly
  by py2LeOpt and pyLeOptRight; the unsupported float + timedelta addition is
  modelled by pyAdd returning a TypeError value.
- Exceptions are modelled by returning the post-state paired with an optional
  error: mutations performed before a raise survive it, as in Python.
-/

namespace RritbedStateDao

/-- Modelled from the spec: the Log Entry record (log_entry.py is not under
src/).  Only the recorded logical time (field accessed through
LogEntry.TIME_UNIX_FIELD) steers the core; the remaining serialized fields are
collapsed into an opaque payload string. -/
structure LogEntry where
  timeUnix : Int
  payload : String
deriving DecidableEq, Repr

/-- The error conditions the embedded code can raise: StateDao.MaximumReachedError,
and the Python built-in IndexError and TypeError. -/
inductive DaoErr
  | maximumReached
  | indexError
  | typeError
deriving DecidableEq, Repr

/-- Python-2 numeric values appearing in the unique-name loop of
StateDao._create_unique_log_file_path: unix-time floats (modelled at second
resolution) and datetime.timedelta values. -/
inductive PyNum
  | float (seconds : Int)
  | timedelta (seconds : Int)
deriving DecidableEq, Repr

/-- Python-2 addition on PyNum.  float + timedelta is unsupported in Python
(both 2 and 3) and raises TypeError; this is the addition performed by
`time_unix += datetime.timedelta(seconds=1)` in the source. -/
def pyAdd : PyNum → PyNum → Except DaoErr PyNum
  | .float a, .float b => .ok (.float (a + b))
  | .timedelta a, .timedelta b => .ok (.timedelta (a + b))
  | _, _ => .error .typeError

/-- A Python dict with string keys and time-or-None values, as an association
list in insertion order.  Used for StateDao._client_times and for the contents
of the state directory. -/
abbrev Dict := List (String × Option Int)

/-- Key membership in a dict. -/
def dictMem (k : String) (d : Dict) : Bool :=
  d.any (fun p => p.1 = k)

/-- Dict lookup: some value when the key is present (the value itself may be
none, i.e. Python None), none when the key is absent (Python KeyError). -/
def dictGet (k : String) (d : Dict) : Option (Option Int) :=
  (d.find? (fun p => p.1 = k)).map (fun p => p.2)

/-- Dict store `d[k] = v`: replaces the value in place when the key is
present (keys are unique in a Python dict), appends a fresh binding
otherwise. -/
def dictSet (k : String) (v : Option Int) : Dict → Dict
  | [] => [(k, v)]
  | p :: rest => if p.1 = k then (k, v) :: rest else p :: dictSet k v rest

/-- Python-2 comparison `a <= b` on time-or-None values: None is below every
number (CPython 2 orders None below all numbers). -/
def py2LeOpt : Option Int → Option Int → Bool
  | none, _ => true
  | some _, none => false
  | some a, some b => a ≤ b

/-- One step of the Python-2 built-in min scan: keep the accumulator unless
the next item is strictly smaller. -/
def py2Step (acc x : Option Int) : Option Int :=
  if py2LeOpt acc x then acc else x

/-- Python-2 `min(values)` over the values of _client_times.  The empty case
is unreachable at the call site (the dict has just been written to). -/
def py2MinVals : List (Option Int) → Option Int
  | [] => none
  | v :: vs => vs.foldl py2Step v

/-- Python-2 comparison `t <= m` of a number against a time-or-None value:
against None the number compares strictly greater, so the result is false.
This is the comparison in the backward scan of StateDao.cut_log. -/
def pyLeOptRight (t : Int) (m : Option Int) : Bool :=
  match m with
  | none => false
  | some v => t ≤ v

/-- One step of the minimum over defined (non-None) values only; None entries
are skipped.  This is the operation the specification describes. -/
def minStep (acc x : Option Int) : Option Int :=
  match x with
  | none => acc
  | some v =>
    match acc with
    | none => some v
    | some a => some (min a v)

/-- Minimum over the defined values of a list, none when no value is defined.
Spec-side definition (spec section 4.1): the global minimum is the minimum
across all defined client times, with undefined treated as not yet included. -/
def minDefinedVals (l : List (Option Int)) : Option Int :=
  l.foldl minStep none

/-- Minimum over the defined client times of a registry, none when no client
time is defined.  Spec-side definition used to state claim C1. -/
def minDefined (d : Dict) : Option Int :=
  minDefinedVals (d.map (fun p => p.2))

/-- The full state of a StateDao instance: the in-memory fields of the Python
object plus the on-disk world it owns (live log file, backup log files, state
directory).  logFile is none when log/log does not exist. -/
structure StateDao where
  currMinTime : Option Int
  clientTimes : Dict
  newLogEntries : List LogEntry
  uniqueLogFileNames : List String
  flushFrequencySet : Bool
  maxEntriesInState : Option Nat
  currentTotalEntries : Nat
  maxEntriesTotal : Option Nat
  logFile : Option (List LogEntry)
  logBackups : List (String × List LogEntry)
  stateFiles : Dict
deriving DecidableEq, Repr

/-- StateDao.__init__ on a given on-disk world: in-memory state starts empty
and _current_total_entries is initialised by count_log_lines, which at this
point counts only the lines of the live log file. -/
def mkStateDao (flushFreq : Bool) (maxInState maxTotal : Option Nat)
    (logFile : Option (List LogEntry)) (backups : List (String × List LogEntry))
    (stateFiles : Dict) : StateDao :=
  { currMinTime := none
    clientTimes := []
    newLogEntries := []
    uniqueLogFileNames := []
    flushFrequencySet := flushFreq
    maxEntriesInState := maxInState
    currentTotalEntries := (logFile.getD []).length
    maxEntriesTotal := maxTotal
    logFile := logFile
    logBackups := backups
    stateFiles := stateFiles }

/-- A DAO constructed with no options on an empty disk. -/
def freshDao : StateDao :=
  mkStateDao false none none none [] []

/-- StateDao._maximum_reached: false when no maximum was set, otherwise
compares the persisted count (plus the queued count when include_state) with
the configured total maximum. -/
def maximumReached (s : StateDao) (includeState : Bool) : Bool :=
  match s.maxEntriesTotal with
  | none => false
  | some m =>
    decide (m ≤ s.currentTotalEntries + (if includeState then s.newLogEntries.length else 0))

/-- StateDao.flush_log: no-op on an empty queue; raises MaximumReachedError
before writing when the persisted-only maximum is reached; otherwise appends
every queued entry to the log file in FIFO order (creating the file if
missing, as open-for-append does) and adds the flushed count to
_current_total_entries. -/
def flushLog (s : StateDao) : StateDao × Option DaoErr :=
  if s.newLogEntries.length = 0 then (s, none)
  else if maximumReached s false then (s, some .maximumReached)
  else
    ({ s with
        currentTotalEntries := s.currentTotalEntries + s.newLogEntries.length
        logFile := some (s.logFile.getD [] ++ s.newLogEntries)
        newLogEntries := [] }, none)

/-- StateDao._auto_flush: set when a flush frequency or an in-state maximum
was configured. -/
def autoFlush (s : StateDao) : Bool :=
  s.flushFrequencySet || s.maxEntriesInState.isSome

/-- StateDao.append_to_log: enqueue the entry; if the inclusive maximum is
reached, flush (whose MaximumReachedError, if any, propagates to the caller)
and return; otherwise apply the auto-flush policy.  The time-based trigger
`_last_flush + _flush_frequency <= time.time()` depends on the wall clock and
is supplied as the oracle argument freqElapsed. -/
def appendToLog (s : StateDao) (e : LogEntry) (freqElapsed : Bool) :
    StateDao × Option DaoErr :=
  let s1 := { s with newLogEntries := s.newLogEntries ++ [e] }
  if maximumReached s1 true then flushLog s1
  else if !autoFlush s1 then (s1, none)
  else
    let doAutoFlush :=
      (match s1.maxEntriesInState with
       | some m => decide (m ≤ s1.newLogEntries.length)
       | none => false)
      || (s1.flushFrequencySet && freqElapsed)
    if doAutoFlush then flushLog s1 else (s1, none)

/-- StateDao.set_client_time: store the value; when the current global
minimum is None take the new value directly, otherwise recompute it as the
Python-2 minimum over all stored client values (None included, and below
every number). -/
def setClientTime (s : StateDao) (identifier : String) (newTime : Option Int) :
    StateDao :=
  let ct := dictSet identifier newTime s.clientTimes
  { s with
      clientTimes := ct
      currMinTime :=
        match s.currMinTime with
        | none => newTime
        | some _ => py2MinVals (ct.map (fun p => p.2)) }

/-- StateDao.get_client_time: return the stored value; on KeyError record the
client as None via set_client_time and return None. -/
def getClientTime (s : StateDao) (identifier : String) :
    StateDao × Option Int :=
  match dictGet identifier s.clientTimes with
  | some v => (s, v)
  | none => (setClientTime s identifier none, none)

/-- StateDao.get_current_min_time: pure read of _curr_min_time. -/
def getCurrentMinTime (s : StateDao) : Option Int :=
  s.currMinTime

/-- StateDao.count_log_lines: queued entries plus the lines of the log file
when it exists. -/
def countLogLines (s : StateDao) : Nat :=
  s.newLogEntries.length + (s.logFile.getD []).length

/-- The fixed relative path of the live log file, os.path.join("log", "log"). -/
def logFilePath : String :=
  "log/log"

/-- StateDao._create_log_file_name_from_time: the backup name derived from a
unix time at one-second resolution.  The strftime rendering of the second is
modelled by the decimal rendering of the integral second count. -/
def createLogFileNameFromTime (timeUnix : Int) : String :=
  logFilePath ++ "_until_" ++ toString timeUnix

/-- Existence on disk of a candidate backup name (os.path.lexists): generated
names carry the suffix _until_, so only backup log files can bear one. -/
def fileExistsOnDisk (s : StateDao) (name : String) : Bool :=
  s.logBackups.any (fun p => p.1 = name)

/-- The while loop of StateDao._create_unique_log_file_path, fuel-bounded.
Each round formats a candidate from the running time value; on a collision the
source executes `time_unix += datetime.timedelta(seconds=1)`, a float plus
timedelta addition, whose TypeError propagates.  The fuel-exhaustion and
non-float branches are unreachable: the very first collision already raises. -/
def createUniqueGo (s : StateDao) : Nat → PyNum → Except DaoErr String
  | 0, _ => .error .typeError
  | fuel + 1, timeUnix =>
    match timeUnix with
    | .timedelta _ => .error .typeError
    | .float t =>
      if fileExistsOnDisk s (createLogFileNameFromTime t)
          || s.uniqueLogFileNames.contains (createLogFileNameFromTime t) then
        match pyAdd (.float t) (.timedelta 1) with
        | .error e => .error e
        | .ok t2 => createUniqueGo s fuel t2
      else .ok (createLogFileNameFromTime t)

/-- StateDao._create_unique_log_file_path: run the candidate loop from the
current wall-clock time; on success record the name in
_unique_log_file_names to keep it session-unique. -/
def createUniqueLogFilePath (s : StateDao) (nowSecs : Int) :
    StateDao × Except DaoErr String :=
  match createUniqueGo s (s.logBackups.length + s.uniqueLogFileNames.length + 1)
      (.float nowSecs) with
  | .error e => (s, .error e)
  | .ok name =>
    ({ s with uniqueLogFileNames := s.uniqueLogFileNames ++ [name] }, .ok name)

/-- The backward scan of StateDao.cut_log, acting on the reversed line list:
drop lines until one at or below the minimum is found.  Exhausting the list
models the source reading log_lines[-1] from an emptied list, a Python
IndexError, encoded as none. -/
def cutScan (minTime : Option Int) : List LogEntry → Option (List LogEntry)
  | [] => none
  | e :: rest =>
    if pyLeOptRight e.timeUnix minTime then some (e :: rest)
    else cutScan minTime rest

/-- StateDao.cut_log: return integers-result none when no log file exists;
otherwise create a unique backup name, flush, copy the file, and trim the
copy from the end down to the current minimum time.  Returns the new state,
the (lines_removed, log_length, new_file_path) result, and the raised error
if any.  On the IndexError path the full copy has already been written to the
backup name and the trimming rewrite never happens. -/
def cutLog (s : StateDao) (nowSecs : Int) :
    StateDao × Option (Nat × Nat × String) × Option DaoErr :=
  match s.logFile with
  | none => (s, none, none)
  | some _ =>
    match createUniqueLogFilePath s nowSecs with
    | (s1, .error e) => (s1, none, some e)
    | (s1, .ok newPath) =>
      match flushLog s1 with
      | (s2, some e) => (s2, none, some e)
      | (s2, none) =>
        let logLines := s2.logFile.getD []
        match cutScan s2.currMinTime logLines.reverse with
        | none =>
          ({ s2 with logBackups := s2.logBackups ++ [(newPath, logLines)] },
           none, some .indexError)
        | some keptRev =>
          ({ s2 with logBackups := s2.logBackups ++ [(newPath, keptRev.reverse)] },
           some (logLines.length - keptRev.length, logLines.length, newPath), none)

/-- StateDao._rename_log_file: when the log file exists, move it to a freshly
generated unique backup name; a TypeError from the name generator propagates. -/
def renameLogFile (s : StateDao) (nowSecs : Int) :
    StateDao × Except DaoErr String :=
  match s.logFile with
  | none => (s, .ok "File does not exist")
  | some lines =>
    match createUniqueLogFilePath s nowSecs with
    | (s1, .error e) => (s1, .error e)
    | (s1, .ok newName) =>
      ({ s1 with
          logFile := none
          logBackups := s1.logBackups ++ [(newName, lines)] },
       .ok "File was renamed successfully")

/-- StateDao._delete_state_files: delete the file named state and the file of
every client currently in _client_times. -/
def deleteStateFiles (s : StateDao) : StateDao :=
  { s with
      stateFiles := s.stateFiles.filter
        (fun p => !(p.1 = "state" || s.clientTimes.any (fun c => c.1 = p.1))) }

/-- StateDao._clear_internal_state: reset _curr_min_time, _client_times and
_new_log_entries.  The source resets nothing else; in particular
_current_total_entries keeps its value. -/
def clearInternalState (s : StateDao) : StateDao :=
  { s with
      currMinTime := none
      clientTimes := []
      newLogEntries := [] }

/-- StateDao.reset: flush, rename the log file, delete the state files, clear
the in-memory state.  Errors raised by the flush or by the rename propagate,
leaving the later steps undone. -/
def reset (s : StateDao) (nowSecs : Int) : StateDao × Option DaoErr :=
  match flushLog s with
  | (s1, some e) => (s1, some e)
  | (s1, none) =>
    match renameLogFile s1 nowSecs with
    | (s2, .error e) => (s2, some e)
    | (s2, .ok _) => (clearInternalState (deleteStateFiles s2), none)

/-- StateDao._load_state_from_file: the file named state holds the global
minimum; any other file holds the time of the client the file is named
after. -/
def loadStateFromFile (s : StateDao) (fileName : String) (content : Option Int) :
    StateDao :=
  if fileName = "state" then { s with currMinTime := content }
  else { s with clientTimes := dictSet fileName content s.clientTimes }

/-- StateDao.__enter__: load every file found in the state directory. -/
def daoEnter (s : StateDao) : StateDao :=
  s.stateFiles.foldl (fun acc kv => loadStateFromFile acc kv.1 kv.2) s

/-- StateDao._write_all_to_files (the body of __exit__): write the global
minimum to the state file, write every known client value to its own file
(each write fully replacing the file), then flush the log. -/
def writeAllToFiles (s : StateDao) : StateDao × Option DaoErr :=
  let files1 := dictSet "state" s.currMinTime s.stateFiles
  let files2 := s.clientTimes.foldl (fun fs kv => dictSet kv.1 kv.2 fs) files1
  flushLog { s with stateFiles := files2 }

/-- A fresh DAO constructed on the disk left behind by a previous instance,
then entered: the clean-restart path of the source. -/
def restartFromDisk (s : StateDao) : StateDao :=
  daoEnter (mkStateDao false none none s.logFile s.logBackups s.stateFiles)

/-- The operations of the Buffered Log Writer interface that the capacity
claims quantify over.  The oracle on append is the wall-clock flush-frequency
trigger. -/
inductive DaoOp
  | append (e : LogEntry) (freqElapsed : Bool)
  | flush
deriving Repr

/-- Run one operation, keeping the post-state and discarding the raised
error, as a caller that catches MaximumReachedError would. -/
def runOp (s : StateDao) (op : DaoOp) : StateDao :=
  match op with
  | .append e f => (appendToLog s e f).1
  | .flush => (flushLog s).1

/-- Run a sequence of operations from a given state. -/
def runOps (s : StateDao) (ops : List DaoOp) : StateDao :=
  ops.foldl runOp s

/-- Run a sequence of set_client_time calls with defined times. -/
def runSetOps (s : StateDao) (ops : List (String × Int)) : StateDao :=
  ops.foldl (fun acc kv => setClientTime acc kv.1 (some kv.2)) s

/-- A DAO constructed with max_entries_total = n over an existing empty log
file: the initial state of the capacity claims. -/
def capDao (n : Nat) : StateDao :=
  mkStateDao false none (some n) (some []) [] []

/-- The inductive invariant behind claim C3: the persisted counter matches
the file, never exceeds the cap, and a non-empty queue fits under the cap
unless the cap is exactly reached. -/
def capInv (n : Nat) (s : StateDao) : Prop :=
  s.maxEntriesTotal = some n ∧
  s.currentTotalEntries = (s.logFile.getD []).length ∧
  s.currentTotalEntries ≤ n ∧
  (s.newLogEntries ≠ [] →
    s.currentTotalEntries + s.newLogEntries.length < n ∨
    s.currentTotalEntries = n)

/-- Concrete log entries used by the concrete-input theorems. -/
def e10 : LogEntry := ⟨10, "entry-ten"⟩

def e20 : LogEntry := ⟨20, "entry-twenty"⟩

def e30 : LogEntry := ⟨30, "entry-thirty"⟩

def e40 : LogEntry := ⟨40, "entry-forty"⟩

/-- Claim C1 counterexample state: set client a to time 5, then observe the
unseen client b (which records b as None). -/
def c1CexDao : StateDao :=
  (getClientTime (setClientTime freshDao "a" (some 5)) "b").1

/-- Claim C4 state: a flushed log with logical times 10, 20, 30, 40, two
clients whose defined minimum is 25, and global minimum 25. -/
def c4Dao : StateDao :=
  { freshDao with
      currMinTime := some 25
      clientTimes := [("c-one", some 25), ("c-two", some 40)]
      currentTotalEntries := 4
      logFile := some [e10, e20, e30, e40] }

/-- Claim C5 state: a flushed log in which every recorded time exceeds the
global minimum 25. -/
def c5Dao : StateDao :=
  { freshDao with
      currMinTime := some 25
      currentTotalEntries := 2
      logFile := some [e30, e40] }

/-- Claim C6 state before reset: cap 1, one entry appended and flushed. -/
def c6PreDao : StateDao :=
  (appendToLog (capDao 1) e10 false).1

/-- Claim C6 state after reset. -/
def c6AfterReset : StateDao :=
  (reset c6PreDao 100).1

/-- Claim C6 comparison state: a fresh instance with the same configuration
started on an empty disk. -/
def c6Fresh : StateDao :=
  mkStateDao false none (some 1) none [] []

/-- Claim C7 counterexample state: a registry whose single client is named
state, the name of the global-minimum snapshot file. -/
def c7CexDao : StateDao :=
  setClientTime freshDao "state" (some 5)

/-- Claim C9 state: one backup name already generated in this session at
second 100. -/
def c9Dao : StateDao :=
  (createUniqueLogFilePath freshDao 100).1

/-- Claim C2 witness state: cap 1 already reached on disk, empty queue. -/
def c2StuckDao : StateDao :=
  { capDao 1 with currentTotalEntries := 1, logFile := some [e10] }

/-- Claim C7 witness state: two ordinary clients, neither named state. -/
def c7WitnessDao : StateDao :=
  setClientTime (setClientTime freshDao "a" (some 3)) "b" (some 7)

/-- The registry invariant behind the amended claim C1: as long as every
recorded client time is defined, the stored global minimum equals the minimum
over the (all defined) client times. -/
def registryInv (s : StateDao) : Prop :=
  s.currMinTime = minDefined s.clientTimes ∧ ∀ p ∈ s.clientTimes, p.2 ≠ none

theorem foldl_minStep_eq_none (l : List (Option Int)) (acc : Option Int) :
    l.foldl minStep acc = none ↔ acc = none ∧ ∀ x ∈ l, x = none := by
  induction l generalizing acc with
  | nil => simp
  | cons x xs ih =>
    simp only [List.foldl_cons, List.mem_cons]
    rw [ih]
    cases x with
    | none =>
      simp [minStep]
    | some v =>
      cases acc with
      | none => simp [minStep]
      | some a => simp [minStep]

theorem foldl_py2Step_allSome (vs : List (Option Int)) (a : Int)
    (h : ∀ x ∈ vs, x ≠ none) :
    vs.foldl py2Step (some a) = vs.foldl minStep (some a) := by
  induction vs generalizing a with
  | nil => rfl
  | cons x xs ih =>
    obtain ⟨b, rfl⟩ : ∃ b, x = some b := by
      cases x with
      | none => exact absurd rfl (h none (List.mem_cons_self _ _))
      | some b => exact ⟨b, rfl⟩
    simp only [List.foldl_cons]
    have hstep : py2Step (some a) (some b) = some (min a b) := by
      by_cases hab : a ≤ b <;> simp [py2Step, py2LeOpt, hab, min_def]
    have hstep2 : minStep (some a) (some b) = some (min a b) := rfl
    rw [hstep, hstep2]
    exact ih (min a b) (fun x hx => h x (List.mem_cons_of_mem _ hx))

theorem py2MinVals_eq_minDefinedVals (l : List (Option Int)) (hne : l ≠ [])
    (h : ∀ x ∈ l, x ≠ none) : py2MinVals l = minDefinedVals l := by
  cases l with
  | nil => exact absurd rfl hne
  | cons x xs =>
    obtain ⟨a, rfl⟩ : ∃ a, x = some a := by
      cases x with
      | none => exact absurd rfl (h none (List.mem_cons_self _ _))
      | some a => exact ⟨a, rfl⟩
    unfold py2MinVals minDefinedVals
    simp only [List.foldl_cons]
    have : minStep none (some a) = some a := rfl
    rw [this]
    exact foldl_py2Step_allSome xs a (fun y hy => h y (List.mem_cons_of_mem _ hy))

theorem allDefined_dictSet (d : Dict) (k : String) (t : Int)
    (h : ∀ p ∈ d, p.2 ≠ none) :
    ∀ p ∈ dictSet k (some t) d, p.2 ≠ none := by
  induction d with
  | nil =>
    intro p hp
    simp only [dictSet, List.mem_singleton] at hp
    rw [hp]
    simp
  | cons q rest ih =>
    intro p hp
    by_cases hqk : q.1 = k
    · simp only [dictSet, if_pos hqk] at hp
      rcases List.mem_cons.1 hp with h1 | h1
      · rw [h1]; simp
      · exact h p (List.mem_cons_of_mem _ h1)
    · simp only [dictSet, if_neg hqk] at hp
      rcases List.mem_cons.1 hp with h1 | h1
      · rw [h1]; exact h q (List.mem_cons_self _ _)
      · exact ih (fun r hr => h r (List.mem_cons_of_mem _ hr)) p h1

theorem dictSet_ne_nil (k : String) (v : Option Int) (d : Dict) :
    dictSet k v d ≠ [] := by
  cases d with
  | nil => simp [dictSet]
  | cons p rest =>
    by_cases hpk : p.1 = k <;> simp [dictSet, hpk]

theorem minDefined_none_nil (d : Dict) (hdef : ∀ p ∈ d, p.2 ≠ none)
    (h : minDefined d = none) : d = [] := by
  cases d with
  | nil => rfl
  | cons p rest =>
    exfalso
    unfold minDefined minDefinedVals at h
    rw [foldl_minStep_eq_none] at h
    exact hdef p (List.mem_cons_self _ _)
      (h.2 p.2 (List.mem_map.2 ⟨p, List.mem_cons_self _ _, rfl⟩))

theorem registryInv_set (s : StateDao) (k : String) (t : Int)
    (h : registryInv s) : registryInv (setClientTime s k (some t)) := by
  obtain ⟨hmin, hdef⟩ := h
  have hdef2 := allDefined_dictSet s.clientTimes k t hdef
  constructor
  · show (setClientTime s k (some t)).currMinTime =
      minDefined (setClientTime s k (some t)).clientTimes
    unfold setClientTime
    dsimp only
    cases hcm : s.currMinTime with
    | none =>
      have hnil : s.clientTimes = [] :=
        minDefined_none_nil s.clientTimes hdef (by rw [← hmin, hcm])
      rw [hnil]
      rfl
    | some m =>
      have hne : (dictSet k (some t) s.clientTimes).map (fun p => p.2) ≠ [] := by
        intro hcon
        exact dictSet_ne_nil k (some t) s.clientTimes (List.map_eq_nil_iff.1 hcon)
      have hall : ∀ x ∈ (dictSet k (some t) s.clientTimes).map (fun p => p.2),
          x ≠ none := by
        intro x hx
        obtain ⟨q, hq, hqx⟩ := List.mem_map.1 hx
        exact hqx ▸ hdef2 q hq
      exact py2MinVals_eq_minDefinedVals _ hne hall
  · exact hdef2

theorem registryInv_runSetOps (ops : List (String × Int)) (s : StateDao)
    (h : registryInv s) : registryInv (runSetOps s ops) := by
  induction ops generalizing s with
  | nil => exact h
  | cons kv rest ih => exact ih _ (registryInv_set s kv.1 kv.2 h)

/-- Claim C1, amended: restricted to call sequences in which every recorded
time is defined (set_client_time with a concrete time, and no
get_client_time on an unseen client), the stored global minimum always equals
the minimum over the defined client times; in particular setting a client to
a new minimum updates it and setting a non-minimal time leaves it unchanged.
Once any client entry is undefined the code stops excluding it (see the
counterexample). -/
theorem c1_global_min_defined_only_amended (ops : List (String × Int)) :
    getCurrentMinTime (runSetOps freshDao ops) =
      minDefined (runSetOps freshDao ops).clientTimes :=
  (registryInv_runSetOps ops freshDao ⟨rfl, by intro p hp; simp [freshDao, mkStateDao] at hp⟩).1

theorem capInv_flushLog_pre (n : Nat) (s : StateDao)
    (hmax : s.maxEntriesTotal = some n)
    (hcnt : s.currentTotalEntries = (s.logFile.getD []).length)
    (hle : s.currentTotalEntries ≤ n)
    (hq : s.newLogEntries ≠ [] →
      s.currentTotalEntries + s.newLogEntries.length ≤ n ∨
      s.currentTotalEntries = n) :
    capInv n (flushLog s).1 := by
  unfold flushLog
  by_cases h0 : s.newLogEntries.length = 0
  · simp only [h0, if_true]
    exact ⟨hmax, hcnt, hle, fun hne => absurd (List.length_eq_zero.1 h0) hne⟩
  · have hne : s.newLogEntries ≠ [] := fun hcon => h0 (by simp [hcon])
    simp only [h0, if_false]
    by_cases hm : maximumReached s false
    · simp only [hm, if_true]
      have hge : n ≤ s.currentTotalEntries := by
        unfold maximumReached at hm
        rw [hmax] at hm
        simpa using hm
      exact ⟨hmax, hcnt, hle, fun _ => Or.inr (Nat.le_antisymm hle hge)⟩
    · simp only [hm, if_false]
      have hlt : s.currentTotalEntries < n := by
        unfold maximumReached at hm
        rw [hmax] at hm
        simp at hm
        omega
      have hfit : s.currentTotalEntries + s.newLogEntries.length ≤ n := by
        rcases hq hne with h1 | h1
        · exact h1
        · omega
      refine ⟨hmax, ?_, ?_, ?_⟩
      · simp [hcnt]
      · simpa using hfit
      · simp

theorem capInv_flushLog (n : Nat) (s : StateDao) (h : capInv n s) :
    capInv n (flushLog s).1 := by
  obtain ⟨hmax, hcnt, hle, hq⟩ := h
  exact capInv_flushLog_pre n s hmax hcnt hle
    (fun hne => (hq hne).imp (fun h1 => Nat.le_of_lt h1) id)

theorem capInv_appendToLog (n : Nat) (s : StateDao) (e : LogEntry) (f : Bool)
    (h : capInv n s) : capInv n (appendToLog s e f).1 := by
  obtain ⟨hmax, hcnt, hle, hq⟩ := h
  have hpre : capInv n (flushLog { s with newLogEntries := s.newLogEntries ++ [e] }).1 := by
    refine capInv_flushLog_pre n _ hmax (by simpa using hcnt) (by simpa using hle) ?_
    intro _
    by_cases hqnil : s.newLogEntries = []
    · by_cases hpn : s.currentTotalEntries = n
      · exact Or.inr hpn
      · refine Or.inl ?_
        simp [hqnil]
        omega
    · rcases hq hqnil with h1 | h1
      · refine Or.inl ?_
        simp only [List.length_append, List.length_singleton]
        omega
      · exact Or.inr h1
  unfold appendToLog
  dsimp only
  split
  · exact hpre
  · rename_i htrig
    have hlt : s.currentTotalEntries + (s.newLogEntries.length + 1) < n := by
      unfold maximumReached at htrig
      simp [hmax] at htrig
      omega
    split
    · refine ⟨hmax, by simpa using hcnt, by simpa using hle, fun _ => Or.inl ?_⟩
      simpa using hlt
    · split
      · exact hpre
      · refine ⟨hmax, by simpa using hcnt, by simpa using hle, fun _ => Or.inl ?_⟩
        simpa using hlt

theorem capInv_runOps (n : Nat) (ops : List DaoOp) (s : StateDao)
    (h : capInv n s) : capInv n (runOps s ops) := by
  induction ops generalizing s with
  | nil => exact h
  | cons op rest ih =>
    refine ih (runOp s op) ?_
    cases op with
    | append e f => exact capInv_appendToLog n s e f h
    | flush => exact capInv_flushLog n s h

/-- Claim C3: with max_entries_total n configured over an initially empty log
file, no sequence of append_to_log and flush_log calls ever brings the number
of persisted lines above n; and once n lines are persisted, a flush of a
non-empty queue is refused with MaximumReachedError before writing anything
(the returned state is unchanged). -/
theorem c3_persisted_cap_invariant (n : Nat) (ops : List DaoOp) :
    ((runOps (capDao n) ops).logFile.getD []).length ≤ n ∧
    (∀ s : StateDao, s.maxEntriesTotal = some n → n ≤ s.currentTotalEntries →
      s.newLogEntries ≠ [] → flushLog s = (s, some DaoErr.maximumReached)) := by
  constructor
  · have hinit : capInv n (capDao n) := by
      refine ⟨rfl, rfl, by simp [capDao, mkStateDao], fun hne => absurd rfl hne⟩
    have h := capInv_runOps n ops (capDao n) hinit
    obtain ⟨_, hcnt, hle, _⟩ := h
    omega
  · intro s h1 h2 h3
    unfold flushLog
    have hlen : ¬ s.newLogEntries.length = 0 := by
      simpa [List.length_eq_zero] using h3
    have hm : maximumReached s false = true := by
      unfold maximumReached
      rw [h1]
      simpa using h2
    simp [hlen, hm]

/-- Witness for claim C3: cap 2 with one append stays within the cap, and a
state at cap 1 with one persisted line and a queued entry has its flush
refused unchanged. -/
theorem c3_persisted_cap_witness :
    ((runOps (capDao 2) [DaoOp.append e10 false]).logFile.getD []).length ≤ 2 ∧
    flushLog { capDao 1 with
        currentTotalEntries := 1
        logFile := some [e10]
        newLogEntries := [e20] } =
      ({ capDao 1 with
          currentTotalEntries := 1
          logFile := some [e10]
          newLogEntries := [e20] }, some DaoErr.maximumReached) :=
  ⟨(c3_persisted_cap_invariant 2 [DaoOp.append e10 false]).1,
   (c3_persisted_cap_invariant 1 []).2 _ rfl (by decide) (by decide)⟩

/-- Claim C2, amended: when an append reaches the inclusive cap
(persisted + queued, counting the entry just enqueued), the pending entries
are flushed to the log file first; but the MaximumReachedError reaches the
caller only when the persisted-only count had already reached the cap.  On
the first append that crosses the cap (persisted still below it) the flush
succeeds and append returns normally; only subsequent appends raise. -/
theorem c2_append_capacity_amended (s : StateDao) (e : LogEntry) (f : Bool)
    (n : Nat) (hmax : s.maxEntriesTotal = some n)
    (hreach : n ≤ s.currentTotalEntries + s.newLogEntries.length + 1) :
    (s.currentTotalEntries < n →
      appendToLog s e f =
        ({ s with
            currentTotalEntries :=
              s.currentTotalEntries + (s.newLogEntries.length + 1)
            logFile := some (s.logFile.getD [] ++ (s.newLogEntries ++ [e]))
            newLogEntries := [] }, none)) ∧
    (n ≤ s.currentTotalEntries →
      appendToLog s e f =
        ({ s with newLogEntries := s.newLogEntries ++ [e] },
         some DaoErr.maximumReached)) := by
  have htrig :
      maximumReached { s with newLogEntries := s.newLogEntries ++ [e] } true = true := by
    unfold maximumReached
    simp [hmax]
    omega
  constructor
  · intro hlt
    have hm :
        maximumReached { s with newLogEntries := s.newLogEntries ++ [e] } false = false := by
      unfold maximumReached
      simp [hmax]
      omega
    unfold appendToLog
    dsimp only
    split
    · unfold flushLog
      split
      · rename_i hq
        simp at hq
      · rw [hm]
        simp
    · rename_i hcon
      exact absurd htrig (by simpa using hcon)
  · intro hge
    have hm :
        maximumReached { s with newLogEntries := s.newLogEntries ++ [e] } false = true := by
      unfold maximumReached
      simp [hmax]
      omega
    unfold appendToLog
    dsimp only
    split
    · unfold flushLog
      split
      · rename_i hq
        simp at hq
      · rfl
    · rename_i hcon
      exact absurd htrig (by simpa using hcon)

/-- Witness for claim C2: the first crossing append at cap 1 flushes and
returns without error; an append on a state whose persisted count already
equals the cap raises after keeping the entry queued. -/
theorem c2_append_capacity_witness :
    appendToLog (capDao 1) e10 false =
      ({ capDao 1 with
          currentTotalEntries := 0 + (0 + 1)
          logFile := some ((capDao 1).logFile.getD [] ++ ([] ++ [e10]))
          newLogEntries := [] }, none) ∧
    appendToLog c2StuckDao e20 false =
      ({ c2StuckDao with newLogEntries := [] ++ [e20] },
       some DaoErr.maximumReached) :=
  ⟨(c2_append_capacity_amended (capDao 1) e10 false 1 rfl (by decide)).1 (by decide),
   (c2_append_capacity_amended c2StuckDao e20 false 1 rfl (by decide)).2 (by decide)⟩

/-- Claim C4: on a log with logical times 10, 20, 30, 40 and global minimum
25, cut_log returns lines_removed 2 and original_length 4 with the backup
path, writes exactly the two old lines to the backup file, and leaves the
live log file unchanged with all four lines. -/
theorem c4_cut_concrete :
    cutLog c4Dao 500 =
      ({ c4Dao with
          uniqueLogFileNames := ["log/log_until_500"]
          logBackups := [("log/log_until_500", [e10, e20])] },
       some (2, 4, "log/log_until_500"), none) := by
  decide

/-- Claim C5 (code bug): on a non-empty log in which every recorded time
exceeds the global minimum, the backward scan of cut_log pops every line and
then reads from the emptied list, raising IndexError instead of terminating
normally with an empty backup file; the backup file is left holding the full
untrimmed copy. -/
theorem c5_cut_all_newer_index_error :
    cutLog c5Dao 500 =
      ({ c5Dao with
          uniqueLogFileNames := ["log/log_until_500"]
          logBackups := [("log/log_until_500", [e30, e40])] },
       none, some DaoErr.indexError) := by
  decide

/-- Claim C8 (code bug): set_client_time mutates only the in-memory registry;
despite its docstring (set_client_time saves to disk) no snapshot file is
written by any registry mutation, so the state directory and the log are byte
for byte what they were.  Snapshots are written only by __exit__. -/
theorem c8_set_client_time_no_disk_write (s : StateDao) (identifier : String)
    (t : Option Int) :
    (setClientTime s identifier t).stateFiles = s.stateFiles ∧
    (setClientTime s identifier t).logFile = s.logFile ∧
    (getClientTime s identifier).1.stateFiles = s.stateFiles ∧
    (getClientTime s identifier).1.logFile = s.logFile := by
  refine ⟨rfl, rfl, ?_, ?_⟩ <;>
    · unfold getClientTime
      cases dictGet identifier s.clientTimes <;> rfl

/-- Claim C9 (code bug): the first backup-name request at second 100 succeeds
and records the name for the session; a second request in the same second
finds the collision and executes the float plus timedelta increment, which
raises TypeError instead of skipping forward to a fresh name. -/
theorem c9_collision_type_error :
    (createUniqueLogFilePath freshDao 100).2 = .ok "log/log_until_100" ∧
    (createUniqueLogFilePath c9Dao 100).2 = .error DaoErr.typeError :=
  ⟨rfl, rfl⟩

/-- Claim C10: flush_log on an empty queue returns at once, touching neither
the log file nor any counter, even when the persisted-only maximum is already
reached, because the emptiness check precedes the capacity check; hence a
flush_log immediately following a non-raising flush_log never raises. -/
theorem c10_flush_empty_noop :
    (∀ s : StateDao, s.newLogEntries = [] → flushLog s = (s, none)) ∧
    (∀ s s2 : StateDao, flushLog s = (s2, none) → flushLog s2 = (s2, none)) := by
  constructor
  · intro s h
    unfold flushLog
    simp [h]
  · intro s s2 h
    unfold flushLog at h ⊢
    by_cases h0 : s.newLogEntries.length = 0
    · simp only [h0, if_true] at h
      cases h
      simp [h0]
    · simp only [h0, if_false] at h
      by_cases hmax : maximumReached s false
      · simp [hmax] at h
      · simp only [hmax, if_false] at h
        cases h
        simp

/-- Witness for claim C10 at the fresh empty DAO. -/
theorem c10_flush_empty_witness :
    flushLog freshDao = (freshDao, none) :=
  c10_flush_empty_noop.1 freshDao rfl

/-- Counterexample for claim C1: after set_client_time a 5 followed by
get_client_time on the unseen client b, the stored global minimum is None
while the minimum over defined client times is 5 — the undefined entry is not
excluded, it drags the Python-2 minimum down to None. -/
theorem c1_none_vs_min_counterexample :
    getCurrentMinTime c1CexDao = none ∧
    minDefined c1CexDao.clientTimes = some 5 := by
  decide

/-- Counterexample for claim C2: with max_entries_total 1 and an empty log,
the first append reaches the inclusive cap, the pending entry is flushed to
the file, and append returns without raising — the condition does not reach
the caller on the first append that crosses the cap. -/
theorem c2_first_crossing_no_raise_counterexample :
    (appendToLog (capDao 1) e10 false).2 = none ∧
    (appendToLog (capDao 1) e10 false).1.logFile = some [e10] := by
  decide

/-- Counterexample for claim C6: reset keeps _current_total_entries, so with
cap 1 and one persisted entry, an append after reset raises
MaximumReachedError while the same append on a fresh instance over an empty
disk succeeds — the system does not behave as on first-ever startup. -/
theorem c6_reset_not_fresh_counterexample :
    (appendToLog c6AfterReset e20 false).2 = some DaoErr.maximumReached ∧
    (appendToLog c6Fresh e20 false).2 = none ∧
    c6AfterReset.currentTotalEntries = 1 ∧
    c6Fresh.currentTotalEntries = 0 := by
  decide

theorem flushLog_ok (s s1 : StateDao) (h : flushLog s = (s1, none)) :
    s1.newLogEntries = [] ∧
    s1.currentTotalEntries = s.currentTotalEntries + s.newLogEntries.length ∧
    s1.clientTimes = s.clientTimes ∧ s1.currMinTime = s.currMinTime ∧
    s1.stateFiles = s.stateFiles ∧ s1.maxEntriesTotal = s.maxEntriesTotal ∧
    s1.uniqueLogFileNames = s.uniqueLogFileNames ∧
    s1.logBackups = s.logBackups := by
  unfold flushLog at h
  split at h
  · rename_i h0
    rw [Prod.ext_iff] at h
    obtain ⟨h1, -⟩ := h
    subst h1
    have hq : s.newLogEntries = [] := List.length_eq_zero.1 h0
    exact ⟨hq, by simp [h0], rfl, rfl, rfl, rfl, rfl, rfl⟩
  · split at h
    · rw [Prod.ext_iff] at h
      simp at h
    · rw [Prod.ext_iff] at h
      obtain ⟨h1, -⟩ := h
      subst h1
      simp

theorem createUnique_ok (s : StateDao) (t : Int) (s1 : StateDao) (name : String)
    (h : createUniqueLogFilePath s t = (s1, .ok name)) :
    s1 = { s with uniqueLogFileNames := s.uniqueLogFileNames ++ [name] } := by
  unfold createUniqueLogFilePath at h
  split at h
  · rw [Prod.ext_iff] at h
    simp at h
  · rename_i nm hgo
    rw [Prod.ext_iff] at h
    obtain ⟨h1, h2⟩ := h
    have hnm : nm = name := by
      simpa using h2
    subst h1
    rw [hnm]

theorem renameLogFile_ok (s : StateDao) (t : Int) (s1 : StateDao) (msg : String)
    (h : renameLogFile s t = (s1, .ok msg)) :
    s1.logFile = none ∧ s1.clientTimes = s.clientTimes ∧
    s1.currMinTime = s.currMinTime ∧ s1.stateFiles = s.stateFiles ∧
    s1.currentTotalEntries = s.currentTotalEntries ∧
    s1.maxEntriesTotal = s.maxEntriesTotal ∧
    s1.newLogEntries = s.newLogEntries := by
  unfold renameLogFile at h
  split at h
  · rename_i hnone
    rw [Prod.ext_iff] at h
    obtain ⟨h1, -⟩ := h
    subst h1
    exact ⟨hnone, rfl, rfl, rfl, rfl, rfl, rfl⟩
  · rename_i lines hsome
    split at h
    · rw [Prod.ext_iff] at h
      simp at h
    · rename_i s2 nm hcu
      rw [Prod.ext_iff] at h
      obtain ⟨h1, -⟩ := h
      subst h1
      rw [createUnique_ok s t s2 nm hcu]
      simp

theorem dictGet_eq_none_iff (k : String) (d : Dict) :
    dictGet k d = none ↔ ∀ p ∈ d, ¬ p.1 = k := by
  unfold dictGet
  rw [Option.map_eq_none']
  rw [List.find?_eq_none]
  simp

/-- Claim C6, amended: when reset completes without raising, the log file has
been renamed away, the state files (the global-minimum file and every current
client file) are deleted, the in-memory registry and queue are cleared so
get_client_time reports every former client as undefined — but
_current_total_entries is retained (at its post-flush value), so the capacity
checks of append_to_log and flush_log keep behaving as if the pre-reset
entries were still persisted, not as on a fresh instance over an empty log. -/
theorem c6_reset_amended (s s2 : StateDao) (t : Int)
    (h : reset s t = (s2, none)) :
    s2.currMinTime = none ∧ s2.clientTimes = [] ∧ s2.newLogEntries = [] ∧
    s2.logFile = none ∧
    (∀ idf : String, (getClientTime s2 idf).2 = none) ∧
    dictGet "state" s2.stateFiles = none ∧
    (∀ p ∈ s.clientTimes, dictGet p.1 s2.stateFiles = none) ∧
    s2.currentTotalEntries = s.currentTotalEntries + s.newLogEntries.length ∧
    s2.maxEntriesTotal = s.maxEntriesTotal := by
  unfold reset at h
  split at h
  · rw [Prod.ext_iff] at h
    simp at h
  · rename_i s1 hf
    split at h
    · rw [Prod.ext_iff] at h
      simp at h
    · rename_i sR msg hr
      rw [Prod.ext_iff] at h
      obtain ⟨h1, -⟩ := h
      obtain ⟨hfq, hfc, hfct, hfmin, hfsf, hfmax, -, -⟩ := flushLog_ok s s1 hf
      obtain ⟨hrlog, hrct, hrmin, hrsf, hrcnt, hrmax, hrq⟩ :=
        renameLogFile_ok s1 t sR msg hr
      subst h1
      refine ⟨rfl, rfl, rfl, ?_, ?_, ?_, ?_, ?_, ?_⟩
      · simpa [clearInternalState, deleteStateFiles] using hrlog
      · intro idf
        rfl
      · show dictGet "state" (deleteStateFiles sR).stateFiles = none
        rw [dictGet_eq_none_iff]
        intro p hp
        simp only [deleteStateFiles, List.mem_filter] at hp
        intro hps
        rcases hp with ⟨-, hpred⟩
        simp [hps] at hpred
      · intro p hp
        show dictGet p.1 (deleteStateFiles sR).stateFiles = none
        rw [dictGet_eq_none_iff]
        intro q hq
        simp only [deleteStateFiles, List.mem_filter] at hq
        intro hqp
        rcases hq with ⟨-, hpred⟩
        have hmem : sR.clientTimes.any (fun c => c.1 = q.1) = true := by
          rw [hrct, hfct]
          rw [List.any_eq_true]
          exact ⟨p, hp, by simp [hqp]⟩
        simp [hmem] at hpred
      · show sR.currentTotalEntries = s.currentTotalEntries + s.newLogEntries.length
        rw [hrcnt, hfc]
      · show sR.maxEntriesTotal = s.maxEntriesTotal
        rw [hrmax, hfmax]

/-- Witness for claim C6 at the concrete pre-reset state of cap 1 with one
persisted entry: the retained counter equals the pre-reset persisted count. -/
theorem c6_reset_witness :
    (reset c6PreDao 100).1.currentTotalEntries =
      c6PreDao.currentTotalEntries + c6PreDao.newLogEntries.length ∧
    (reset c6PreDao 100).1.clientTimes = [] :=
  ⟨(c6_reset_amended c6PreDao (reset c6PreDao 100).1 100 (by decide)).2.2.2.2.2.2.2.1,
   (c6_reset_amended c6PreDao (reset c6PreDao 100).1 100 (by decide)).2.1⟩

theorem dictMem_exists (k : String) (d : Dict) :
    dictMem k d = true ↔ ∃ p ∈ d, p.1 = k := by
  simp [dictMem, List.any_eq_true]

theorem dictGet_cons_of_pos (q : String) (p : String × Option Int) (d : Dict)
    (h : p.1 = q) : dictGet q (p :: d) = some p.2 := by
  unfold dictGet
  rw [List.find?_cons_of_pos _ (by simp [h])]
  rfl

theorem dictGet_cons_of_neg (q : String) (p : String × Option Int) (d : Dict)
    (h : ¬ p.1 = q) : dictGet q (p :: d) = dictGet q d := by
  unfold dictGet
  rw [List.find?_cons_of_neg _ (by simp [h])]

theorem dictGet_dictSet (k q : String) (v : Option Int) (d : Dict) :
    dictGet q (dictSet k v d) = if k = q then some v else dictGet q d := by
  induction d with
  | nil =>
    rw [show dictSet k v [] = [(k, v)] from rfl]
    by_cases hkq : k = q
    · rw [dictGet_cons_of_pos q (k, v) [] hkq, if_pos hkq]
    · rw [dictGet_cons_of_neg q (k, v) [] hkq, if_neg hkq]
  | cons p rest ih =>
    by_cases hpk : p.1 = k
    · rw [show dictSet k v (p :: rest) = (k, v) :: rest by simp [dictSet, hpk]]
      by_cases hkq : k = q
      · rw [dictGet_cons_of_pos q (k, v) rest hkq, if_pos hkq]
      · have hpq : ¬ p.1 = q := by rw [hpk]; exact hkq
        rw [dictGet_cons_of_neg q (k, v) rest hkq, if_neg hkq,
          dictGet_cons_of_neg q p rest hpq]
    · rw [show dictSet k v (p :: rest) = p :: dictSet k v rest by simp [dictSet, hpk]]
      by_cases hpq : p.1 = q
      · have hkq : ¬ k = q := fun hc => hpk (by rw [hpq, hc])
        rw [dictGet_cons_of_pos q p (dictSet k v rest) hpq, if_neg hkq,
          dictGet_cons_of_pos q p rest hpq]
      · rw [dictGet_cons_of_neg q p (dictSet k v rest) hpq,
          dictGet_cons_of_neg q p rest hpq, ih]

theorem mem_keys_dictSet (x k : String) (v : Option Int) (d : Dict) :
    x ∈ (dictSet k v d).map Prod.fst ↔ x = k ∨ x ∈ d.map Prod.fst := by
  induction d with
  | nil => simp [dictSet]
  | cons p rest ih =>
    by_cases hpk : p.1 = k
    · simp only [dictSet, if_pos hpk, List.map_cons, List.mem_cons]
      constructor
      · rintro (h | h)
        · exact Or.inl h
        · exact Or.inr (Or.inr h)
      · rintro (h | h | h)
        · exact Or.inl h
        · exact Or.inl (by rw [h, hpk])
        · exact Or.inr h
    · simp only [dictSet, if_neg hpk, List.map_cons, List.mem_cons, ih]
      tauto

theorem nodup_keys_dictSet (k : String) (v : Option Int) (d : Dict)
    (h : (d.map Prod.fst).Nodup) :
    ((dictSet k v d).map Prod.fst).Nodup := by
  induction d with
  | nil => simp [dictSet]
  | cons p rest ih =>
    simp only [List.map_cons, List.nodup_cons] at h
    by_cases hpk : p.1 = k
    · simp only [dictSet, if_pos hpk, List.map_cons, List.nodup_cons]
      exact ⟨by rw [← hpk]; exact h.1, h.2⟩
    · simp only [dictSet, if_neg hpk, List.map_cons, List.nodup_cons]
      refine ⟨?_, ih h.2⟩
      rw [mem_keys_dictSet]
      rintro (h1 | h1)
      · exact hpk h1
      · exact h.1 h1

theorem nodup_keys_foldl_dictSet (cs : Dict) (fs : Dict)
    (h : (fs.map Prod.fst).Nodup) :
    (((cs.foldl (fun acc kv => dictSet kv.1 kv.2 acc) fs)).map Prod.fst).Nodup := by
  induction cs generalizing fs with
  | nil => exact h
  | cons p rest ih => exact ih _ (nodup_keys_dictSet p.1 p.2 fs h)

theorem foldl_dictSet_get (cs : Dict) (fs : Dict) (k : String)
    (hnodup : (cs.map Prod.fst).Nodup) :
    dictGet k (cs.foldl (fun acc kv => dictSet kv.1 kv.2 acc) fs) =
      match dictGet k cs with
      | some v => some v
      | none => dictGet k fs := by
  induction cs generalizing fs with
  | nil => simp [dictGet]
  | cons p rest ih =>
    simp only [List.map_cons, List.nodup_cons] at hnodup
    simp only [List.foldl_cons]
    rw [ih _ hnodup.2]
    by_cases hpk : p.1 = k
    · have hrest : dictGet k rest = none := by
        rw [dictGet_eq_none_iff]
        intro q hq hqk
        exact hnodup.1 (List.mem_map.2 ⟨q, hq, by rw [hqk, hpk]⟩)
      rw [hrest, dictGet_cons_of_pos k p rest hpk, dictGet_dictSet, if_pos hpk]
    · rw [dictGet_cons_of_neg k p rest hpk, dictGet_dictSet, if_neg hpk]

theorem loadFold_clientGet_state (files : Dict) (s : StateDao) :
    dictGet "state"
        (files.foldl (fun acc kv => loadStateFromFile acc kv.1 kv.2) s).clientTimes =
      dictGet "state" s.clientTimes := by
  induction files generalizing s with
  | nil => rfl
  | cons p rest ih =>
    simp only [List.foldl_cons]
    rw [ih]
    by_cases hp : p.1 = "state"
    · simp [loadStateFromFile, hp]
    · simp [loadStateFromFile, hp, dictGet_dictSet]

theorem loadFold_currMin (files : Dict) (s : StateDao)
    (hnodup : (files.map Prod.fst).Nodup) :
    (files.foldl (fun acc kv => loadStateFromFile acc kv.1 kv.2) s).currMinTime =
      match dictGet "state" files with
      | some v => v
      | none => s.currMinTime := by
  induction files generalizing s with
  | nil => rfl
  | cons p rest ih =>
    simp only [List.map_cons, List.nodup_cons] at hnodup
    simp only [List.foldl_cons]
    rw [ih _ hnodup.2]
    by_cases hp : p.1 = "state"
    · have hrest : dictGet "state" rest = none := by
        rw [dictGet_eq_none_iff]
        intro q hq hqs
        exact hnodup.1 (List.mem_map.2 ⟨q, hq, by rw [hqs, hp]⟩)
      rw [hrest, dictGet_cons_of_pos "state" p rest hp]
      simp [loadStateFromFile, hp]
    · rw [dictGet_cons_of_neg "state" p rest hp]
      cases hdg : dictGet "state" rest <;> simp [loadStateFromFile, hp]

theorem loadFold_clientGet (files : Dict) (s : StateDao) (k : String)
    (hk : ¬ k = "state") (hnodup : (files.map Prod.fst).Nodup) :
    dictGet k
        (files.foldl (fun acc kv => loadStateFromFile acc kv.1 kv.2) s).clientTimes =
      match dictGet k files with
      | some v => some v
      | none => dictGet k s.clientTimes := by
  induction files generalizing s with
  | nil => rfl
  | cons p rest ih =>
    simp only [List.map_cons, List.nodup_cons] at hnodup
    simp only [List.foldl_cons]
    rw [ih _ hnodup.2]
    by_cases hpk : p.1 = k
    · have hps : ¬ p.1 = "state" := by rw [hpk]; exact hk
      have hrest : dictGet k rest = none := by
        rw [dictGet_eq_none_iff]
        intro q hq hqk
        exact hnodup.1 (List.mem_map.2 ⟨q, hq, by rw [hqk, hpk]⟩)
      rw [hrest, dictGet_cons_of_pos k p rest hpk]
      show dictGet k (loadStateFromFile s p.1 p.2).clientTimes = some p.2
      rw [show (loadStateFromFile s p.1 p.2).clientTimes =
            dictSet p.1 p.2 s.clientTimes from by simp [loadStateFromFile, hps]]
      rw [dictGet_dictSet, if_pos hpk]
    · rw [dictGet_cons_of_neg k p rest hpk]
      by_cases hps : p.1 = "state"
      · cases hdg : dictGet k rest <;> simp [loadStateFromFile, hps]
      · cases hdg : dictGet k rest <;>
          simp [loadStateFromFile, hps, dictGet_dictSet, hpk]

theorem flushLog_fst_stateFiles (s : StateDao) :
    (flushLog s).1.stateFiles = s.stateFiles := by
  unfold flushLog
  split
  · rfl
  · split <;> rfl

/-- Claim C7, amended: for every registry state whose client identifiers are
distinct and none of them is the reserved file name state, saving all state
to a directory that holds only files the registry owns (the global-minimum
file and client files) followed by a fresh load from that directory
reconstructs an identical Client Clock Registry: the same global minimum and
the same time (or absence) for every client identifier.  A client literally
named state breaks the round trip (see the counterexample). -/
theorem c7_roundtrip_amended (s : StateDao)
    (hcnod : (s.clientTimes.map Prod.fst).Nodup)
    (hnostate : ∀ p ∈ s.clientTimes, ¬ p.1 = "state")
    (hfnod : (s.stateFiles.map Prod.fst).Nodup)
    (hfs : ∀ p ∈ s.stateFiles, p.1 = "state" ∨ dictMem p.1 s.clientTimes = true) :
    (restartFromDisk (writeAllToFiles s).1).currMinTime = s.currMinTime ∧
    (∀ k : String,
      dictGet k (restartFromDisk (writeAllToFiles s).1).clientTimes =
        dictGet k s.clientTimes) := by
  have hw : (writeAllToFiles s).1.stateFiles =
      s.clientTimes.foldl (fun fs kv => dictSet kv.1 kv.2 fs)
        (dictSet "state" s.currMinTime s.stateFiles) := by
    unfold writeAllToFiles
    exact flushLog_fst_stateFiles _
  have hnodup2 :
      (((writeAllToFiles s).1.stateFiles).map Prod.fst).Nodup := by
    rw [hw]
    exact nodup_keys_foldl_dictSet _ _
      (nodup_keys_dictSet "state" s.currMinTime s.stateFiles hfnod)
  have hcs : dictGet "state" s.clientTimes = none := by
    rw [dictGet_eq_none_iff]
    exact hnostate
  have hget2 : dictGet "state" (writeAllToFiles s).1.stateFiles =
      some s.currMinTime := by
    rw [hw, foldl_dictSet_get _ _ _ hcnod, hcs, dictGet_dictSet]
    simp
  constructor
  · show (daoEnter _).currMinTime = s.currMinTime
    unfold daoEnter
    rw [loadFold_currMin _ _ (by simpa [mkStateDao] using hnodup2)]
    simp only [mkStateDao]
    rw [hget2]
  · intro k
    show dictGet k (daoEnter _).clientTimes = dictGet k s.clientTimes
    unfold daoEnter
    by_cases hk : k = "state"
    · subst hk
      rw [loadFold_clientGet_state]
      rw [hcs]
      rfl
    · rw [loadFold_clientGet _ _ k hk (by simpa [mkStateDao] using hnodup2)]
      have hfiles : dictGet k (mkStateDao false none none
          (writeAllToFiles s).1.logFile (writeAllToFiles s).1.logBackups
          (writeAllToFiles s).1.stateFiles).stateFiles =
          dictGet k (writeAllToFiles s).1.stateFiles := rfl
      rw [hfiles, hw, foldl_dictSet_get _ _ _ hcnod]
      cases hdg : dictGet k s.clientTimes with
      | some v => simp
      | none =>
        have hfsnone : dictGet k s.stateFiles = none := by
          rw [dictGet_eq_none_iff]
          intro q hq hqk
          rcases hfs q hq with h1 | h1
          · exact hk (by rw [← hqk, h1])
          · rw [dictMem_exists] at h1
            obtain ⟨r, hr, hrk⟩ := h1
            have hall := (dictGet_eq_none_iff k s.clientTimes).1 hdg
            exact hall r hr (by rw [hrk, hqk])
        rw [dictGet_dictSet, if_neg (fun hc => hk hc.symm), hfsnone]
        rfl

/-- Witness for claim C7 at a concrete registry with clients a and b. -/
theorem c7_roundtrip_witness :
    (restartFromDisk (writeAllToFiles c7WitnessDao).1).currMinTime =
        c7WitnessDao.currMinTime ∧
    dictGet "a" (restartFromDisk (writeAllToFiles c7WitnessDao).1).clientTimes =
        dictGet "a" c7WitnessDao.clientTimes :=
  ⟨(c7_roundtrip_amended c7WitnessDao (by decide) (by decide) (by decide)
      (by decide)).1,
   (c7_roundtrip_amended c7WitnessDao (by decide) (by decide) (by decide)
      (by decide)).2 "a"⟩

/-- Counterexample for claim C7: a registry whose only client is named state
does not survive the save and fresh-load round trip — the client file
collides with the global-minimum file, so the reloaded registry has no client
at all where the original had one. -/
theorem c7_state_client_counterexample :
    dictGet "state" (restartFromDisk (writeAllToFiles c7CexDao).1).clientTimes
        = none ∧
    dictGet "state" c7CexDao.clientTimes = some (some 5) := by
  decide

end RritbedStateDao
